import Mathlib

/-!
Shallow embedding of the worker-logs service (arc0btc/worker-logs).

Embedded components:
* `src/result.ts` — the tagged `Ok`/`Err` result envelope, the `ApiError`
  shape, the closed set of error codes, and `wrapError`.
* `src/services/stats.ts` — the KV-backed daily-statistics service
  (`getStats`, `getStatsRange`, `incrementStats`, `incrementStatsBatch`,
  `getTotalStats`).
* `src/services/registry.ts` — the KV-backed app registry (`listApps`,
  `getApp`, `registerApp`, `deleteApp`, `validateApiKey`,
  `regenerateApiKey`).
* `src/index.ts` (POST /logs) and `src/utils.ts` (`countByLevel`) — the two
  level-counting aggregations.
* The per-app Durable Object (`src/durable-objects/app-logs-do.ts`) is not
  part of the sources available here; its stats serialization and its query
  operation are modelled from the specification where a claim needs them
  (see the doc comments starting with `Modelled from the spec`).

Modelling conventions:
* Calendar dates (`YYYY-MM-DD` keys produced by `getDateKey`) are embedded
  as integer day numbers (`DateKey := Int`); `date.setDate(date.getDate()-i)`
  becomes subtraction of `i`.  ISO-8601 timestamps are likewise embedded as
  integers; both encodings are order- and equality-faithful.
* JavaScript numbers reaching the counters are integers here (`Int`), so
  negative increments remain representable, as in the source.
* A KV namespace is a typed store (parsed record per key) together with a
  failure oracle per operation: `some msg` at a key means that storage call
  throws with message `msg` (caught by the service's `try/catch`), `none`
  means it succeeds.  A throwing write leaves the store unchanged.
* `kv.put` calls are additionally recorded on a `puts` trace so that "how
  many persisted updates an operation performs" is observable.
-/

namespace WorkerLogs

/-- Log levels: the closed enum DEBUG | INFO | WARN | ERROR from `src/types.ts`. -/
inductive LogLevel
  | DEBUG
  | INFO
  | WARN
  | ERROR
deriving DecidableEq, Repr

/-- Calendar-date key (a `YYYY-MM-DD` string in the source), embedded as an
integer day number; "today minus i days" is `today - i`. -/
abbrev DateKey := Int

/-- DailyStats record (`src/types.ts`): one calendar day's per-level counters. -/
structure DailyStats where
  date : DateKey
  debug : Int
  info : Int
  warn : Int
  error : Int
deriving DecidableEq, Repr

/-- Standard API error shape from `src/result.ts`: `{code, message, details?}`.
The opaque `details` record is embedded as an optional string. -/
structure ApiError where
  code : String
  message : String
  details : Option String
deriving DecidableEq, Repr

/-- Tagged result envelope from `src/result.ts`: `Ok {ok:true,data}` or
`Err {ok:false,error}`. -/
inductive Result (α : Type)
  | Ok : α → Result α
  | Err : ApiError → Result α
deriving DecidableEq, Repr

namespace ErrorCode

def BAD_REQUEST : String := "BAD_REQUEST"

def UNAUTHORIZED : String := "UNAUTHORIZED"

def FORBIDDEN : String := "FORBIDDEN"

def NOT_FOUND : String := "NOT_FOUND"

def VALIDATION_ERROR : String := "VALIDATION_ERROR"

def INTERNAL_ERROR : String := "INTERNAL_ERROR"

def NOT_IMPLEMENTED : String := "NOT_IMPLEMENTED"

def SERVICE_UNAVAILABLE : String := "SERVICE_UNAVAILABLE"

end ErrorCode

/-- The closed set of error codes exported by `ErrorCode` in `src/result.ts`. -/
def errorCodes : List String :=
  [ErrorCode.BAD_REQUEST, ErrorCode.UNAUTHORIZED, ErrorCode.FORBIDDEN,
   ErrorCode.NOT_FOUND, ErrorCode.VALIDATION_ERROR, ErrorCode.INTERNAL_ERROR,
   ErrorCode.NOT_IMPLEMENTED, ErrorCode.SERVICE_UNAVAILABLE]

/-- Embedding of `wrapError` (src/result.ts): wrap a thrown message as an
`Err` with code `INTERNAL_ERROR`.  The services' inline `catch` blocks build
the identical value. -/
def wrapError {α : Type} (msg : String) : Result α :=
  Result.Err { code := ErrorCode.INTERNAL_ERROR, message := msg, details := none }

/-- The zero-valued stats record the service synthesizes for a date with no
stored data (both in `getStats` and at the start of the increments). -/
def emptyStats (dateKey : DateKey) : DailyStats :=
  { date := dateKey, debug := 0, info := 0, warn := 0, error := 0 }

/-- The `switch (level)` counter update shared by `incrementStats` and
`incrementStatsBatch` in `src/services/stats.ts`. -/
def bump (s : DailyStats) (level : LogLevel) (count : Int) : DailyStats :=
  match level with
  | .DEBUG => { s with debug := s.debug + count }
  | .INFO => { s with info := s.info + count }
  | .WARN => { s with warn := s.warn + count }
  | .ERROR => { s with error := s.error + count }

/-- Projection of the counter belonging to a level. -/
def counterOf (s : DailyStats) : LogLevel → Int
  | .DEBUG => s.debug
  | .INFO => s.info
  | .WARN => s.warn
  | .ERROR => s.error

/-- The stats KV namespace: parsed `DailyStats` per `stats:{appId}:{date}`
key, failure oracles for `kv.get`/`kv.put`, and a trace of performed puts. -/
structure StatsKV where
  store : String → DateKey → Option DailyStats
  getFail : String → DateKey → Option String
  putFail : String → DateKey → Option String
  puts : List (String × DateKey × DailyStats)

/-- A successful `kv.put` of a stats record: updates the store at the key and
records the write on the trace. -/
def kvPutStats (kv : StatsKV) (appId : String) (d : DateKey) (s : DailyStats) : StatsKV :=
  { kv with
    store := fun a d2 => if a = appId ∧ d2 = d then some s else kv.store a d2
    puts := kv.puts ++ [(appId, d, s)] }

/-- Embedding of `getStats` (src/services/stats.ts): read the record for the
requested date (defaulting to today), synthesizing a zero record when the key
is empty; a throwing read is wrapped as an `INTERNAL_ERROR`. -/
def getStats (kv : StatsKV) (appId : String) (today : DateKey)
    (date : Option DateKey) : Result DailyStats :=
  let dateKey := date.getD today
  match kv.getFail appId dateKey with
  | some msg => wrapError msg
  | none =>
    match kv.store appId dateKey with
    | none => Result.Ok (emptyStats dateKey)
    | some s => Result.Ok s

/-- Embedding of `getStatsRange` (src/services/stats.ts): for `i` in
`0..days-1` read the record `i` days back via `getStats`, pushing only the
`ok` results; the loop itself cannot throw, so the result is always `Ok`. -/
def getStatsRange (kv : StatsKV) (appId : String) (today : DateKey)
    (days : Nat) : Result (List DailyStats) :=
  Result.Ok ((List.range days).filterMap fun (i : Nat) =>
    match getStats kv appId today (some (today - (i : Int))) with
    | Result.Ok s => some s
    | Result.Err _ => none)

/-- Embedding of `incrementStats` (src/services/stats.ts): load today's
record (or initialize a zero record), add `count` to the counter selected by
`level`, persist with a 30-day TTL, and return the updated record; a throwing
storage call is wrapped as an `INTERNAL_ERROR` and nothing is persisted. -/
def incrementStats (kv : StatsKV) (appId : String) (today : DateKey)
    (level : LogLevel) (count : Int) : Result DailyStats × StatsKV :=
  match kv.getFail appId today with
  | some msg => (wrapError msg, kv)
  | none =>
    let stats := (kv.store appId today).getD (emptyStats today)
    let stats := bump stats level count
    match kv.putFail appId today with
    | some msg => (wrapError msg, kv)
    | none => (Result.Ok stats, kvPutStats kv appId today stats)

/-- Embedding of `incrementStatsBatch` (src/services/stats.ts): load today's
record (or initialize a zero record), apply every `{level, count}` pair in
order, then persist once and return the updated record. -/
def incrementStatsBatch (kv : StatsKV) (appId : String) (today : DateKey)
    (counts : List (LogLevel × Int)) : Result DailyStats × StatsKV :=
  match kv.getFail appId today with
  | some msg => (wrapError msg, kv)
  | none =>
    let stats0 := (kv.store appId today).getD (emptyStats today)
    let stats := counts.foldl (fun s p => bump s p.1 p.2) stats0
    match kv.putFail appId today with
    | some msg => (wrapError msg, kv)
    | none => (Result.Ok stats, kvPutStats kv appId today stats)

/-- Totals shape returned by `getTotalStats` (`{total, by_level}`; the
`by_level` record is flattened into the four counter fields). -/
structure TotalStats where
  total : Int
  debug : Int
  info : Int
  warn : Int
  error : Int
deriving DecidableEq, Repr

/-- Embedding of `getTotalStats` (src/services/stats.ts): sum the per-level
counters over a `getStatsRange` read, propagating its error. -/
def getTotalStats (kv : StatsKV) (appId : String) (today : DateKey)
    (days : Nat) : Result TotalStats :=
  match getStatsRange kv appId today days with
  | Result.Err e => Result.Err e
  | Result.Ok l =>
    let td := l.foldl (fun acc s => acc + s.debug) 0
    let ti := l.foldl (fun acc s => acc + s.info) 0
    let tw := l.foldl (fun acc s => acc + s.warn) 0
    let te := l.foldl (fun acc s => acc + s.error) 0
    Result.Ok { total := td + ti + tw + te, debug := td, info := ti, warn := tw, error := te }

/-- App configuration record (`AppConfig` in `src/types.ts`), stored at
`app:{appId}` in the registry KV. -/
structure AppConfig where
  name : String
  health_urls : List String
  created_at : String
  api_key : String
deriving DecidableEq, Repr

/-- Registry KV namespace (src/services/registry.ts): the `apps` key holds
the parsed app-ID list, `app:{id}` keys hold parsed configs; each storage
operation has a failure oracle (`some msg` means that call throws). -/
structure RegistryKV where
  appsList : Option (List String)
  appCfg : String → Option AppConfig
  getAppsFail : Option String
  getCfgFail : String → Option String
  putAppsFail : Option String
  putCfgFail : String → Option String
  delCfgFail : String → Option String

/-- Embedding of `listApps` (src/services/registry.ts): read the `apps` key,
defaulting to the empty list. -/
def listApps (kv : RegistryKV) : Result (List String) :=
  match kv.getAppsFail with
  | some msg => wrapError msg
  | none => Result.Ok (kv.appsList.getD [])

/-- Embedding of `getApp` (src/services/registry.ts): read the config at
`app:{appId}`, returning `Ok null` when absent. -/
def getApp (kv : RegistryKV) (appId : String) : Result (Option AppConfig) :=
  match kv.getCfgFail appId with
  | some msg => wrapError msg
  | none => Result.Ok (kv.appCfg appId)

/-- The final `kv.put` of the app config shared by both branches of
`registerApp`. -/
def putCfgStep (kv : RegistryKV) (appId : String) (config : AppConfig) :
    Result AppConfig × RegistryKV :=
  match kv.putCfgFail appId with
  | some msg => (wrapError msg, kv)
  | none =>
    (Result.Ok config,
     { kv with appCfg := fun a => if a = appId then some config else kv.appCfg a })

/-- Embedding of `registerApp` (src/services/registry.ts): if a config exists
at `app:{appId}` it is updated in place (spread of the parsed record with
`name` and `health_urls` replaced); otherwise a fresh config is built with a
generated API key (`freshKey`) and creation time (`now`), and the ID is
appended to the `apps` list when missing; finally the config is persisted. -/
def registerApp (kv : RegistryKV) (appId nm : String) (urls : List String)
    (now freshKey : String) : Result AppConfig × RegistryKV :=
  match kv.getCfgFail appId with
  | some msg => (wrapError msg, kv)
  | none =>
    match kv.appCfg appId with
    | some parsed =>
      putCfgStep kv appId { parsed with name := nm, health_urls := urls }
    | none =>
      let config : AppConfig :=
        { name := nm, health_urls := urls, created_at := now, api_key := freshKey }
      match listApps kv with
      | Result.Err e => (Result.Err e, kv)
      | Result.Ok apps =>
        if appId ∈ apps then putCfgStep kv appId config
        else
          match kv.putAppsFail with
          | some msg => (wrapError msg, kv)
          | none => putCfgStep { kv with appsList := some (apps ++ [appId]) } appId config

/-- Payload `{deleted: boolean}` returned by `deleteApp`. -/
structure DeleteAck where
  deleted : Bool
deriving DecidableEq, Repr

/-- Embedding of `deleteApp` (src/services/registry.ts): filter the ID out of
the `apps` list and rewrite it, then delete the `app:{appId}` key; there is no
existence check, and the result is always `Ok {deleted: true}` on success. -/
def deleteApp (kv : RegistryKV) (appId : String) : Result DeleteAck × RegistryKV :=
  match listApps kv with
  | Result.Err e => (Result.Err e, kv)
  | Result.Ok apps =>
    let apps2 := apps.filter (fun id => id ≠ appId)
    match kv.putAppsFail with
    | some msg => (wrapError msg, kv)
    | none =>
      let kv1 := { kv with appsList := some apps2 }
      match kv1.delCfgFail appId with
      | some msg => (wrapError msg, kv1)
      | none =>
        (Result.Ok { deleted := true },
         { kv1 with appCfg := fun a => if a = appId then none else kv1.appCfg a })

/-- Embedding of `validateApiKey` (src/services/registry.ts): scan the app
list for the first app whose config carries the key; per-app read failures
are skipped (`appResult.ok &&` guard), only a failing list read is an error. -/
def validateApiKey (kv : RegistryKV) (apiKey : String) : Result (Option String) :=
  match listApps kv with
  | Result.Err e => Result.Err e
  | Result.Ok apps =>
    match apps.find? (fun appId =>
      match getApp kv appId with
      | Result.Ok (some cfg) => cfg.api_key = apiKey
      | _ => false) with
    | some appId => Result.Ok (some appId)
    | none => Result.Ok none

/-- Embedding of `regenerateApiKey` (src/services/registry.ts): look the app
up (absent ⇒ `NOT_FOUND`), replace its `api_key` with a fresh key, persist,
and return the new key. -/
def regenerateApiKey (kv : RegistryKV) (appId : String) (freshKey : String) :
    Result String × RegistryKV :=
  match getApp kv appId with
  | Result.Err e => (Result.Err e, kv)
  | Result.Ok none =>
    (Result.Err { code := ErrorCode.NOT_FOUND, message := s!"App {appId} not found",
                  details := none }, kv)
  | Result.Ok (some cfg) =>
    let config := { cfg with api_key := freshKey }
    match kv.putCfgFail appId with
    | some msg => (wrapError msg, kv)
    | none =>
      (Result.Ok freshKey,
       { kv with appCfg := fun a => if a = appId then some config else kv.appCfg a })

/-- Embedding of the find-and-push `reduce` step in `src/index.ts`
(POST /logs, batch branch): look for an accumulator entry with the log's
level; increment its `count` in place when found, else push `{level, count:1}`. -/
def reduceStep : List (String × Nat) → String → List (String × Nat)
  | [], lv => [(lv, 1)]
  | c :: rest, lv =>
    if c.1 = lv then (c.1, c.2 + 1) :: rest else c :: reduceStep rest lv

/-- The whole find-and-push `reduce` aggregation of `src/index.ts` over the
levels of the submitted logs. -/
def reduceCounts (levels : List String) : List (String × Nat) :=
  levels.foldl reduceStep []

/-- JavaScript `Map.set` on an insertion-ordered association list: overwrite
the value at the existing key's position, else append the new pair. -/
def mapSet : List (String × Nat) → String → Nat → List (String × Nat)
  | [], k, v => [(k, v)]
  | e :: rest, k, v =>
    if e.1 = k then (k, v) :: rest else e :: mapSet rest k v

/-- JavaScript `Map.get`: the value at the first (unique) matching key. -/
def mapGet (m : List (String × Nat)) (k : String) : Option Nat :=
  (m.find? (fun e => e.1 = k)).map (fun e => e.2)

/-- Embedding of `countByLevel` (src/utils.ts): fold the logs' levels through
`counts.set(level, (counts.get(level) ?? 0) + 1)` on an insertion-ordered map,
then list the entries in insertion order (`Array.from(counts.entries())`). -/
def countByLevel (levels : List String) : List (String × Nat) :=
  levels.foldl (fun m lv => mapSet m lv ((mapGet m lv).getD 0 + 1)) []

/-- Modelled from the spec: the per-app Stats Aggregator state owned by the
App Store Coordinator (`src/durable-objects/app-logs-do.ts` is not among the
available sources).  Per §4.2 it keeps at most one `DailyStats` record per
date. -/
def AggState := DateKey → Option DailyStats

/-- Modelled from the spec: `incrementOne(level, count)` of the Stats
Aggregator (§4.2) — load or initialize today's record, add `count` to the
matching level's counter, store it back.  It is a single read-modify-write
step; the Coordinator guarantees it is never interleaved with another
operation for the same app (§5). -/
def incrOne (today : DateKey) (level : LogLevel) (count : Int)
    (st : AggState) : AggState :=
  let r := bump ((st today).getD (emptyStats today)) level count
  fun d => if d = today then some r else st d

/-- Modelled from the spec (§5): the Coordinator serializes all operations
against one app, so a set of concurrent `incrementOne` calls executes as some
sequence of whole read-modify-write steps — any admission order is a
permutation of the call list. -/
def runSerialized (today : DateKey) (ops : List (LogLevel × Int))
    (st : AggState) : AggState :=
  ops.foldl (fun s op => incrOne today op.1 op.2 s) st

/-- Modelled from the spec: `getRange(days)` of the Stats Aggregator (§4.2) —
exactly `days` records, one per date going backward from today inclusive,
most-recent-first, synthesizing zero records for missing dates. -/
def getRange (today : DateKey) (days : Nat) (st : AggState) : List DailyStats :=
  (List.range days).map fun (i : Nat) =>
    (st (today - (i : Int))).getD (emptyStats (today - (i : Int)))

/-- LogEntry (`src/types.ts`): one ingested log line; the ISO-8601 timestamp
is embedded as an integer, the opaque `context` document as an optional
string. -/
structure LogEntry where
  id : String
  level : LogLevel
  message : String
  context : Option String
  request_id : Option String
  timestamp : Int
deriving DecidableEq, Repr

/-- Optional query filters (`QueryFilters` in `src/types.ts`). -/
structure QueryFilters where
  level : Option LogLevel
  since : Option Int
  untilTs : Option Int
  request_id : Option String
  limit : Option Nat
  offset : Option Nat
deriving DecidableEq, Repr

/-- Modelled from the spec (§4.1 `query`): the conjunction (AND) of the
independently optional predicate filters — `level` exact match, `since`
inclusive / `untilTs` exclusive timestamp bounds (the convention the spec
recommends), `request_id` exact match. -/
def matchesFilters (f : QueryFilters) (e : LogEntry) : Bool :=
  (match f.level with | none => true | some l => decide (e.level = l)) &&
  (match f.since with | none => true | some s => decide (s ≤ e.timestamp)) &&
  (match f.untilTs with | none => true | some u => decide (e.timestamp < u)) &&
  (match f.request_id with | none => true | some r => decide (e.request_id = some r))

/-- Timestamp-descending order on log entries (most recent first). -/
def tsDesc (a b : LogEntry) : Prop := b.timestamp ≤ a.timestamp

instance : DecidableRel tsDesc := fun a b => Int.decLe b.timestamp a.timestamp

instance : IsTotal LogEntry tsDesc := ⟨fun a b => Int.le_total b.timestamp a.timestamp⟩

instance : IsTrans LogEntry tsDesc := ⟨fun _ _ _ h1 h2 => le_trans h2 h1⟩

/-- Modelled from the spec (§4.1 `query`, the Durable Object's query
implementation being absent from the sources): keep the stored entries
matching all supplied filters, order them by timestamp descending, skip
`offset` (default 0) entries and cap the result at `limit` (default bound
100, "to cap result size"). -/
def queryLogs (entries : List LogEntry) (f : QueryFilters) : List LogEntry :=
  ((((entries.filter (matchesFilters f)).insertionSort tsDesc).drop
    (f.offset.getD 0)).take (f.limit.getD 100))

/-- The query operation's envelope: the result list is always returned as
`Ok` — an empty match is an empty sequence, not an error. -/
def queryOp (entries : List LogEntry) (f : QueryFilters) : Result (List LogEntry) :=
  Result.Ok (queryLogs entries f)

/-- The record an increment operation starts from: today's stored record if
present, otherwise the zero record initialized with today's date (the
`data ? JSON.parse(data) : {...zeros}` step of both increment functions). -/
def priorStats (kv : StatsKV) (appId : String) (today : DateKey) : DailyStats :=
  (kv.store appId today).getD (emptyStats today)

/-- The fold of the per-pair `switch` over a starting record (the loop body
of `incrementStatsBatch`, and the effect of repeated `incrementStats`). -/
def foldBump (counts : List (LogLevel × Int)) (s : DailyStats) : DailyStats :=
  counts.foldl (fun acc p => bump acc p.1 p.2) s

/-- Sequential composition of single-level `incrementStats` calls, one per
`{level, count}` pair, threading the KV state; stops at the first error.
Used to compare `incrementStatsBatch` against the one-at-a-time increments. -/
def runIncrements (kv : StatsKV) (appId : String) (today : DateKey) :
    List (LogLevel × Int) → Result DailyStats × StatsKV
  | [] => (Result.Ok (priorStats kv appId today), kv)
  | p :: rest =>
    match incrementStats kv appId today p.1 p.2 with
    | (Result.Ok _, kv1) => runIncrements kv1 appId today rest
    | e => e

/-- Written from the spec's words for the range read: the dense, fixed-length
series of `days` records, one per calendar date going backward from today
inclusive, most-recent-first, zero-valued where nothing is stored. -/
def specDenseSeries (kv : StatsKV) (appId : String) (today : DateKey)
    (days : Nat) : List DailyStats :=
  (List.range days).map fun (i : Nat) =>
    (kv.store appId (today - (i : Int))).getD (emptyStats (today - (i : Int)))

/-- All four counters of a record are non-negative. -/
def Nonneg (s : DailyStats) : Prop := ∀ l : LogLevel, 0 ≤ counterOf s l

/-- Every record stored in the stats KV has non-negative counters. -/
def StoreNonneg (kv : StatsKV) : Prop :=
  ∀ a d s, kv.store a d = some s → Nonneg s

/-- A stats result, when successful, carries a non-negative record. -/
def okStatsNonneg : Result DailyStats → Prop
  | Result.Ok s => Nonneg s
  | Result.Err _ => True

/-- A stats-range result, when successful, carries only non-negative records. -/
def okListNonneg : Result (List DailyStats) → Prop
  | Result.Ok l => ∀ s ∈ l, Nonneg s
  | Result.Err _ => True

/-- Well-formed operation outcome: a tagged `Ok`, or an `Err` whose code
belongs to the closed `ErrorCode` set and whose error carries only a message
(no details leaked). -/
def resultWF {α : Type} : Result α → Prop
  | Result.Ok _ => True
  | Result.Err e => e.code ∈ errorCodes ∧ e.details = none

/-- A stats KV with nothing stored and no storage failures. -/
def okStatsKV : StatsKV :=
  { store := fun _ _ => none
    getFail := fun _ _ => none
    putFail := fun _ _ => none
    puts := [] }

/-- A stats KV whose every read throws with message `boom`. -/
def failStatsKV : StatsKV :=
  { okStatsKV with getFail := fun _ _ => some "boom" }

/-- A sample registered app configuration. -/
def demoCfg : AppConfig :=
  { name := "Old Name", health_urls := ["https://old.example"],
    created_at := "2024-01-01T00:00:00Z", api_key := "key-original" }

/-- A registry KV with one registered app (`app`) and no storage failures. -/
def okRegistryKV : RegistryKV :=
  { appsList := some ["app"]
    appCfg := fun a => if a = "app" then some demoCfg else none
    getAppsFail := none
    getCfgFail := fun _ => none
    putAppsFail := none
    putCfgFail := fun _ => none
    delCfgFail := fun _ => none }

/-- Query filters with nothing supplied. -/
def noFilters : QueryFilters :=
  { level := none, since := none, untilTs := none, request_id := none,
    limit := none, offset := none }

/-- A store of 101 log entries, all matching the empty filter set. -/
def demoEntries : List LogEntry :=
  (List.range 101).map fun i =>
    { id := "e", level := LogLevel.INFO, message := "m", context := none,
      request_id := none, timestamp := (i : Int) }

/-- A two-entry store for exercising the query theorem. -/
def demoPair : List LogEntry :=
  [{ id := "a", level := LogLevel.INFO, message := "m1", context := none,
     request_id := none, timestamp := 5 },
   { id := "b", level := LogLevel.WARN, message := "m2", context := none,
     request_id := none, timestamp := 9 }]

/-- The Aggregator state before any increment: nothing stored for any date. -/
def emptyAgg : AggState := fun _ => none

/-! ## Theorems -/

theorem counterOf_bump_self (s : DailyStats) (level : LogLevel) (count : Int) :
    counterOf (bump s level count) level = counterOf s level + count := by
  cases level <;> rfl

theorem counterOf_bump_ne (s : DailyStats) (level : LogLevel) (count : Int)
    (l : LogLevel) (h : l ≠ level) :
    counterOf (bump s level count) l = counterOf s l := by
  cases level <;> cases l <;> first | rfl | exact absurd rfl h

theorem bump_date (s : DailyStats) (level : LogLevel) (count : Int) :
    (bump s level count).date = s.date := by
  cases level <;> rfl

theorem incrementStats_eq (kv : StatsKV) (appId : String) (today : DateKey)
    (level : LogLevel) (count : Int)
    (hget : kv.getFail appId today = none) (hput : kv.putFail appId today = none) :
    incrementStats kv appId today level count =
      (Result.Ok (bump (priorStats kv appId today) level count),
       kvPutStats kv appId today (bump (priorStats kv appId today) level count)) := by
  simp [incrementStats, priorStats, hget, hput]

theorem reduceStep_eq_mapSet (m : List (String × Nat)) (lv : String) :
    reduceStep m lv = mapSet m lv ((mapGet m lv).getD 0 + 1) := by
  induction m with
  | nil => rfl
  | cons e rest ih =>
    by_cases h : e.1 = lv
    · simp [reduceStep, mapSet, mapGet, h]
    · simp [reduceStep, mapSet, mapGet, h, ih]

/-- C8: the find-and-push reduce aggregation of the HTTP batch route
(src/index.ts, POST /logs) produces exactly the same `{level, count}` list —
same levels, same counts, same first-occurrence order — as the Map-based
`countByLevel` helper (src/utils.ts) used by the RPC batch path. -/
theorem reduceCounts_eq_countByLevel (levels : List String) :
    reduceCounts levels = countByLevel levels := by
  unfold reduceCounts countByLevel
  exact List.foldl_ext _ _ [] (fun acc lv _ => reduceStep_eq_mapSet acc lv)

/-- C3: for every level and count, `incrementStats` starts from today's
stored record (a zero record with today's date when nothing is stored),
returns and persists exactly that record with the counter matching `level`
increased by `count`, the date and the other three counters unchanged. -/
theorem incrementStats_correct (kv : StatsKV) (appId : String) (today : DateKey)
    (level : LogLevel) (count : Int)
    (hget : kv.getFail appId today = none) (hput : kv.putFail appId today = none) :
    (incrementStats kv appId today level count).1 =
      Result.Ok (bump (priorStats kv appId today) level count) ∧
    (incrementStats kv appId today level count).2.store appId today =
      some (bump (priorStats kv appId today) level count) ∧
    (incrementStats kv appId today level count).2.puts =
      kv.puts ++ [(appId, today, bump (priorStats kv appId today) level count)] ∧
    counterOf (bump (priorStats kv appId today) level count) level =
      counterOf (priorStats kv appId today) level + count ∧
    (∀ l, l ≠ level →
      counterOf (bump (priorStats kv appId today) level count) l =
        counterOf (priorStats kv appId today) l) ∧
    (bump (priorStats kv appId today) level count).date =
      (priorStats kv appId today).date ∧
    (kv.store appId today = none → priorStats kv appId today = emptyStats today) := by
  rw [incrementStats_eq kv appId today level count hget hput]
  refine ⟨rfl, by simp [kvPutStats], by simp [kvPutStats],
    counterOf_bump_self _ _ _, fun l h => counterOf_bump_ne _ _ _ _ h,
    bump_date _ _ _, fun h => by simp [priorStats, h]⟩

theorem incrementStats_correct_witness :
    okStatsKV.getFail "app" 0 = none ∧
    (incrementStats okStatsKV "app" 0 LogLevel.INFO 1).1 =
      Result.Ok (bump (priorStats okStatsKV "app" 0) LogLevel.INFO 1) :=
  ⟨rfl, (incrementStats_correct okStatsKV "app" 0 LogLevel.INFO 1 rfl rfl).1⟩

theorem kvPutStats_store_self (kv : StatsKV) (appId : String) (today : DateKey)
    (s : DailyStats) : (kvPutStats kv appId today s).store appId today = some s := by
  simp [kvPutStats]

theorem runIncrements_ok (appId : String) (today : DateKey) :
    ∀ (counts : List (LogLevel × Int)) (kv : StatsKV),
      kv.getFail appId today = none → kv.putFail appId today = none →
      (runIncrements kv appId today counts).1 =
        Result.Ok (foldBump counts (priorStats kv appId today)) := by
  intro counts
  induction counts with
  | nil => intro kv _ _; rfl
  | cons p rest ih =>
    intro kv hget hput
    rw [runIncrements, incrementStats_eq kv appId today p.1 p.2 hget hput]
    have hprior : priorStats
        (kvPutStats kv appId today (bump (priorStats kv appId today) p.1 p.2))
        appId today = bump (priorStats kv appId today) p.1 p.2 := by
      simp [priorStats, kvPutStats_store_self]
    rw [ih (kvPutStats kv appId today (bump (priorStats kv appId today) p.1 p.2))
      hget hput, hprior]
    rfl

/-- C4: the record returned and persisted by `incrementStatsBatch` equals the
record obtained by running the single-level `incrementStats` once per
`{level, count}` pair in sequence from the same starting record, and the batch
performs exactly one persisted update (one entry appended to the put trace). -/
theorem incrementStatsBatch_eq_sequence (kv : StatsKV) (appId : String)
    (today : DateKey) (counts : List (LogLevel × Int))
    (hget : kv.getFail appId today = none) (hput : kv.putFail appId today = none) :
    (incrementStatsBatch kv appId today counts).1 =
      (runIncrements kv appId today counts).1 ∧
    (incrementStatsBatch kv appId today counts).1 =
      Result.Ok (foldBump counts (priorStats kv appId today)) ∧
    (incrementStatsBatch kv appId today counts).2.store appId today =
      some (foldBump counts (priorStats kv appId today)) ∧
    (incrementStatsBatch kv appId today counts).2.puts =
      kv.puts ++ [(appId, today, foldBump counts (priorStats kv appId today))] := by
  have hb : incrementStatsBatch kv appId today counts =
      (Result.Ok (foldBump counts (priorStats kv appId today)),
       kvPutStats kv appId today (foldBump counts (priorStats kv appId today))) := by
    simp [incrementStatsBatch, foldBump, priorStats, hget, hput]
  rw [hb, runIncrements_ok appId today counts kv hget hput]
  exact ⟨rfl, rfl, kvPutStats_store_self _ _ _ _, rfl⟩

theorem incrementStatsBatch_eq_sequence_witness :
    okStatsKV.getFail "app" 0 = none ∧
    (incrementStatsBatch okStatsKV "app" 0 [(LogLevel.DEBUG, 5), (LogLevel.ERROR, 2)]).1 =
      (runIncrements okStatsKV "app" 0 [(LogLevel.DEBUG, 5), (LogLevel.ERROR, 2)]).1 :=
  ⟨rfl, (incrementStatsBatch_eq_sequence okStatsKV "app" 0
    [(LogLevel.DEBUG, 5), (LogLevel.ERROR, 2)] rfl rfl).1⟩

theorem nonneg_emptyStats (d : DateKey) : Nonneg (emptyStats d) := by
  intro l; cases l <;> simp [counterOf, emptyStats]

theorem nonneg_priorStats (kv : StatsKV) (appId : String) (today : DateKey)
    (hstore : StoreNonneg kv) : Nonneg (priorStats kv appId today) := by
  unfold priorStats
  cases hs : kv.store appId today with
  | none => exact nonneg_emptyStats today
  | some s => exact hstore _ _ _ hs

theorem counterOf_bump_mono (s : DailyStats) (level : LogLevel) (count : Int)
    (hc : 0 ≤ count) (l : LogLevel) :
    counterOf s l ≤ counterOf (bump s level count) l := by
  by_cases h : l = level
  · subst h; rw [counterOf_bump_self]; omega
  · rw [counterOf_bump_ne _ _ _ _ h]

theorem counterOf_foldBump_mono (counts : List (LogLevel × Int)) (s : DailyStats)
    (hcs : ∀ p ∈ counts, 0 < p.2) (l : LogLevel) :
    counterOf s l ≤ counterOf (foldBump counts s) l := by
  induction counts generalizing s with
  | nil => exact le_refl _
  | cons p rest ih =>
    have h1 : counterOf s l ≤ counterOf (bump s p.1 p.2) l :=
      counterOf_bump_mono s p.1 p.2 (le_of_lt (hcs p (List.mem_cons_self p rest))) l
    have h2 : counterOf (bump s p.1 p.2) l ≤ counterOf (foldBump rest (bump s p.1 p.2)) l :=
      ih (bump s p.1 p.2) (fun q hq => hcs q (List.mem_cons_of_mem p hq))
    exact le_trans h1 h2

theorem nonneg_bump (s : DailyStats) (level : LogLevel) (count : Int)
    (hs : Nonneg s) (hc : 0 ≤ count) : Nonneg (bump s level count) :=
  fun l => le_trans (hs l) (counterOf_bump_mono s level count hc l)

theorem nonneg_foldBump (counts : List (LogLevel × Int)) (s : DailyStats)
    (hs : Nonneg s) (hcs : ∀ p ∈ counts, 0 < p.2) : Nonneg (foldBump counts s) :=
  fun l => le_trans (hs l) (counterOf_foldBump_mono counts s hcs l)

theorem storeNonneg_put (kv : StatsKV) (appId : String) (today : DateKey)
    (s : DailyStats) (hstore : StoreNonneg kv) (hs : Nonneg s) :
    StoreNonneg (kvPutStats kv appId today s) := by
  intro a d r hr
  simp only [kvPutStats] at hr
  by_cases h : a = appId ∧ d = today
  · rw [if_pos h] at hr
    cases hr
    exact hs
  · rw [if_neg h] at hr
    exact hstore _ _ _ hr

theorem getStats_nonneg (kv : StatsKV) (appId : String) (today : DateKey)
    (d : Option DateKey) (hstore : StoreNonneg kv) :
    okStatsNonneg (getStats kv appId today d) := by
  cases hg : kv.getFail appId (d.getD today) with
  | some msg => simp [getStats, okStatsNonneg, hg, wrapError]
  | none =>
    cases hs : kv.store appId (d.getD today) with
    | none =>
      simp only [getStats, hg, hs, okStatsNonneg]
      exact nonneg_emptyStats _
    | some s =>
      simp only [getStats, hg, hs, okStatsNonneg]
      exact hstore _ _ _ hs

theorem priorStats_put_mono (kv : StatsKV) (appId : String) (today : DateKey)
    (s : DailyStats)
    (hmono : ∀ l, counterOf (priorStats kv appId today) l ≤ counterOf s l) :
    ∀ a dk l, counterOf (priorStats kv a dk) l ≤
      counterOf (priorStats (kvPutStats kv appId today s) a dk) l := by
  intro a dk l
  by_cases h : a = appId ∧ dk = today
  · obtain ⟨ha, hd⟩ := h
    subst ha
    subst hd
    have he : priorStats (kvPutStats kv a dk s) a dk = s := by
      simp [priorStats, kvPutStats_store_self]
    rw [he]
    exact hmono l
  · have he : priorStats (kvPutStats kv appId today s) a dk = priorStats kv a dk := by
      simp [priorStats, kvPutStats, h]
    rw [he]

theorem incrementStats_post_cases (kv : StatsKV) (appId : String) (today : DateKey)
    (level : LogLevel) (count : Int) :
    incrementStats kv appId today level count =
      ((incrementStats kv appId today level count).1, kv) ∨
    incrementStats kv appId today level count =
      (Result.Ok (bump (priorStats kv appId today) level count),
       kvPutStats kv appId today (bump (priorStats kv appId today) level count)) := by
  cases hg : kv.getFail appId today with
  | some msg => left; simp [incrementStats, hg]
  | none =>
    cases hp : kv.putFail appId today with
    | some msg => left; simp [incrementStats, hg, hp]
    | none => right; exact incrementStats_eq kv appId today level count hg hp

theorem incrementStatsBatch_post_cases (kv : StatsKV) (appId : String)
    (today : DateKey) (counts : List (LogLevel × Int)) :
    incrementStatsBatch kv appId today counts =
      ((incrementStatsBatch kv appId today counts).1, kv) ∨
    incrementStatsBatch kv appId today counts =
      (Result.Ok (foldBump counts (priorStats kv appId today)),
       kvPutStats kv appId today (foldBump counts (priorStats kv appId today))) := by
  cases hg : kv.getFail appId today with
  | some msg => left; simp [incrementStatsBatch, hg]
  | none =>
    cases hp : kv.putFail appId today with
    | some msg => left; simp [incrementStatsBatch, hg, hp]
    | none => right; simp [incrementStatsBatch, foldBump, priorStats, hg, hp]

theorem incrementStats_ok_inv (kv : StatsKV) (appId : String) (today : DateKey)
    (level : LogLevel) (count : Int) (r : DailyStats)
    (h : (incrementStats kv appId today level count).1 = Result.Ok r) :
    r = bump (priorStats kv appId today) level count := by
  rcases hg : kv.getFail appId today with _ | msg
  · rcases hp : kv.putFail appId today with _ | msg2
    · simp [incrementStats, priorStats, hg, hp] at h ⊢
      first
      | exact h
      | exact h.symm
    · simp [incrementStats, hg, hp, wrapError] at h
  · simp [incrementStats, hg, wrapError] at h

theorem incrementStatsBatch_ok_inv (kv : StatsKV) (appId : String)
    (today : DateKey) (counts : List (LogLevel × Int)) (r : DailyStats)
    (h : (incrementStatsBatch kv appId today counts).1 = Result.Ok r) :
    r = foldBump counts (priorStats kv appId today) := by
  rcases hg : kv.getFail appId today with _ | msg
  · rcases hp : kv.putFail appId today with _ | msg2
    · simp [incrementStatsBatch, foldBump, priorStats, hg, hp] at h
      exact h.symm
    · simp [incrementStatsBatch, hg, hp, wrapError] at h
  · simp [incrementStatsBatch, hg, wrapError] at h

/-- C5: given that every stored record has non-negative counters and every
increment amount is positive, each stats operation preserves the
non-negativity invariant of the store, each increment operation leaves every
counter of every prior record at or above its prior value, and every record
any stats operation returns has non-negative counters. -/
theorem stats_invariants (kv : StatsKV) (appId : String) (today : DateKey)
    (level : LogLevel) (count : Int) (counts : List (LogLevel × Int))
    (d : Option DateKey) (days : Nat)
    (hstore : StoreNonneg kv) (hc : 0 < count) (hcs : ∀ p ∈ counts, 0 < p.2) :
    StoreNonneg (incrementStats kv appId today level count).2 ∧
    (∀ a dk l, counterOf (priorStats kv a dk) l ≤
      counterOf (priorStats (incrementStats kv appId today level count).2 a dk) l) ∧
    StoreNonneg (incrementStatsBatch kv appId today counts).2 ∧
    (∀ a dk l, counterOf (priorStats kv a dk) l ≤
      counterOf (priorStats (incrementStatsBatch kv appId today counts).2 a dk) l) ∧
    okStatsNonneg (incrementStats kv appId today level count).1 ∧
    okStatsNonneg (incrementStatsBatch kv appId today counts).1 ∧
    okStatsNonneg (getStats kv appId today d) ∧
    okListNonneg (getStatsRange kv appId today days) := by
  have hprior : Nonneg (priorStats kv appId today) := nonneg_priorStats kv appId today hstore
  have hbumpOk : Nonneg (bump (priorStats kv appId today) level count) :=
    nonneg_bump _ _ _ hprior (le_of_lt hc)
  have hfoldOk : Nonneg (foldBump counts (priorStats kv appId today)) :=
    nonneg_foldBump _ _ hprior hcs
  refine ⟨?_, ?_, ?_, ?_, ?_, ?_, getStats_nonneg kv appId today d hstore, ?_⟩
  · rcases incrementStats_post_cases kv appId today level count with h | h
    · rw [h]; exact hstore
    · rw [h]; exact storeNonneg_put kv appId today _ hstore hbumpOk
  · rcases incrementStats_post_cases kv appId today level count with h | h
    · rw [h]; intro a dk l; exact le_refl _
    · rw [h]
      exact priorStats_put_mono kv appId today _
        (counterOf_bump_mono _ _ _ (le_of_lt hc))
  · rcases incrementStatsBatch_post_cases kv appId today counts with h | h
    · rw [h]; exact hstore
    · rw [h]; exact storeNonneg_put kv appId today _ hstore hfoldOk
  · rcases incrementStatsBatch_post_cases kv appId today counts with h | h
    · rw [h]; intro a dk l; exact le_refl _
    · rw [h]
      exact priorStats_put_mono kv appId today _
        (counterOf_foldBump_mono _ _ hcs)
  · rcases hr : (incrementStats kv appId today level count).1 with r | e
    · have := incrementStats_ok_inv kv appId today level count r hr
      subst this
      exact hbumpOk
    · exact trivial
  · rcases hr : (incrementStatsBatch kv appId today counts).1 with r | e
    · have := incrementStatsBatch_ok_inv kv appId today counts r hr
      subst this
      exact hfoldOk
    · exact trivial
  · unfold getStatsRange okListNonneg
    intro s hs
    rcases List.mem_filterMap.mp hs with ⟨i, _, hi⟩
    rcases hg : getStats kv appId today (some (today - i)) with r | e
    · rw [hg] at hi
      have hn := getStats_nonneg kv appId today (some (today - i)) hstore
      rw [hg] at hn
      cases hi
      exact hn
    · rw [hg] at hi
      cases hi

theorem stats_invariants_witness :
    okStatsNonneg (incrementStats okStatsKV "app" 0 LogLevel.INFO 1).1 :=
  (stats_invariants okStatsKV "app" 0 LogLevel.INFO 1 [(LogLevel.DEBUG, 2)] none 7
    (fun _ _ _ h => nomatch h) (by decide) (by decide)).2.2.2.2.1

theorem range_reads_dense (kv : StatsKV) (appId : String) (today : DateKey) :
    ∀ (is : List Nat), (∀ i ∈ is, kv.getFail appId (today - (i : Int)) = none) →
      (is.filterMap fun (i : Nat) =>
        match getStats kv appId today (some (today - (i : Int))) with
        | Result.Ok s => some s
        | Result.Err _ => none) =
      is.map fun (i : Nat) =>
        (kv.store appId (today - (i : Int))).getD (emptyStats (today - (i : Int))) := by
  intro is
  induction is with
  | nil => intro _; rfl
  | cons a t ih =>
    intro h
    have ha := h a (List.mem_cons_self a t)
    have hg : getStats kv appId today (some (today - a)) =
        Result.Ok ((kv.store appId (today - a)).getD (emptyStats (today - a))) := by
      cases hs : kv.store appId (today - a) with
      | none => simp [getStats, ha, hs]
      | some s => simp [getStats, ha, hs]
    simp only [List.filterMap_cons, List.map_cons, hg,
      ih (fun i hi => h i (List.mem_cons_of_mem a hi))]

/-- C2: when every underlying storage read succeeds, `getStatsRange` returns
`Ok` of exactly `days` records, the record at index `i` being the one stored
for the date `i` days before today (most-recent-first), with a zero-valued
record carrying that date synthesized wherever nothing is stored; under the
write invariant that stored records carry their key's date, the record at
index `i` is dated exactly `i` days back. -/
theorem getStatsRange_dense (kv : StatsKV) (appId : String) (today : DateKey)
    (days : Nat)
    (hread : ∀ i : Nat, i < days → kv.getFail appId (today - i) = none)
    (hwf : ∀ d s, kv.store appId d = some s → s.date = d) :
    getStatsRange kv appId today days =
      Result.Ok (specDenseSeries kv appId today days) ∧
    (specDenseSeries kv appId today days).length = days ∧
    (∀ i : Nat, i < days →
      (specDenseSeries kv appId today days)[i]? =
        some ((kv.store appId (today - i)).getD (emptyStats (today - i)))) ∧
    (∀ i : Nat, i < days → ∀ s,
      (specDenseSeries kv appId today days)[i]? = some s → s.date = today - i) := by
  have hidx : ∀ i : Nat, i < days →
      (specDenseSeries kv appId today days)[i]? =
        some ((kv.store appId (today - i)).getD (emptyStats (today - i))) := by
    intro i hi
    unfold specDenseSeries
    rw [List.getElem?_map, List.getElem?_range hi]
    rfl
  refine ⟨?_, by unfold specDenseSeries; rw [List.length_map, List.length_range], hidx, ?_⟩
  · unfold getStatsRange specDenseSeries
    rw [range_reads_dense kv appId today (List.range days)
      (fun i hi => hread i (List.mem_range.mp hi))]
  · intro i hi s hs
    rw [hidx i hi] at hs
    cases hs
    cases hsto : kv.store appId (today - i) with
    | none => simp [hsto, emptyStats]
    | some r => simp [hsto, hwf _ _ hsto]

theorem getStatsRange_dense_witness :
    getStatsRange okStatsKV "app" 0 7 =
      Result.Ok (specDenseSeries okStatsKV "app" 0 7) ∧
    (specDenseSeries okStatsKV "app" 0 7).length = 7 :=
  have h := getStatsRange_dense okStatsKV "app" 0 7
    (fun _ _ => rfl) (fun _ _ hs => nomatch hs)
  ⟨h.1, h.2.1⟩

theorem runSerialized_cons (today : DateKey) (l : LogLevel) (c : Int)
    (ops : List (LogLevel × Int)) (st : AggState) :
    runSerialized today ((l, c) :: ops) st =
      runSerialized today ops (incrOne today l c st) := rfl

theorem runSerialized_info (today : DateKey) :
    ∀ (ops : List (LogLevel × Int)) (st : AggState) (s : DailyStats),
      st today = some s → (∀ o ∈ ops, o = (LogLevel.INFO, 1)) →
      runSerialized today ops st today =
        some { s with info := s.info + ops.length } := by
  intro ops
  induction ops with
  | nil =>
    intro st s hs _
    simp only [runSerialized, List.foldl_nil, List.length_nil, Nat.cast_zero, add_zero, hs]
  | cons o t ih =>
    intro st s hs hops
    have ho : o = (LogLevel.INFO, 1) := hops o (List.mem_cons_self o t)
    subst ho
    rw [runSerialized_cons]
    have h1 : (incrOne today LogLevel.INFO 1 st) today =
        some { s with info := s.info + 1 } := by
      simp [incrOne, hs, bump]
    rw [ih (incrOne today LogLevel.INFO 1 st) { s with info := s.info + 1 } h1
      (fun o ho2 => hops o (List.mem_cons_of_mem _ ho2))]
    cases s
    simp only [List.length_cons, Option.some.injEq, DailyStats.mk.injEq,
      true_and, and_true]
    push_cast
    ring

/-- C1: under the Coordinator's single-writer serialization (modelled from
spec §5: concurrent calls against one app execute as whole, non-interleaved
read-modify-write steps in some order), running any 10 `incrementOne(INFO)`
increments against an empty Aggregator state and then reading
`getRange(days=1)` yields one record for today with the info counter exactly
10 — no concurrent increment is lost. -/
theorem concurrent_increments_exact (today : DateKey) (ops : List (LogLevel × Int))
    (hlen : ops.length = 10) (hops : ∀ o ∈ ops, o = (LogLevel.INFO, 1)) :
    getRange today 1 (runSerialized today ops emptyAgg) =
      [{ date := today, debug := 0, info := 10, warn := 0, error := 0 }] := by
  cases ops with
  | nil => simp at hlen
  | cons o t =>
    have ho : o = (LogLevel.INFO, 1) := hops o (List.mem_cons_self o t)
    subst ho
    have ht : t.length = 9 := by
      simpa using hlen
    have h1 : (incrOne today LogLevel.INFO 1 emptyAgg) today =
        some { date := today, debug := 0, info := 1, warn := 0, error := 0 } := by
      simp [incrOne, emptyAgg, emptyStats, bump]
    rw [runSerialized_cons]
    have hr := runSerialized_info today t (incrOne today LogLevel.INFO 1 emptyAgg)
      { date := today, debug := 0, info := 1, warn := 0, error := 0 } h1
      (fun o ho2 => hops o (List.mem_cons_of_mem _ ho2))
    unfold getRange
    have hr1 : List.range 1 = [0] := rfl
    rw [hr1, List.map_cons, List.map_nil, Nat.cast_zero, sub_zero, hr, ht]
    rfl

theorem concurrent_increments_exact_witness :
    (List.replicate 10 ((LogLevel.INFO : LogLevel), (1 : Int))).length = 10 ∧
    getRange 0 1 (runSerialized 0 (List.replicate 10 (LogLevel.INFO, 1)) emptyAgg) =
      [{ date := 0, debug := 0, info := 10, warn := 0, error := 0 }] :=
  ⟨rfl, concurrent_increments_exact 0 (List.replicate 10 (LogLevel.INFO, 1))
    rfl (by decide)⟩

theorem internal_mem_errorCodes : ErrorCode.INTERNAL_ERROR ∈ errorCodes := by
  decide

theorem notFound_mem_errorCodes : ErrorCode.NOT_FOUND ∈ errorCodes := by
  decide

theorem resultWF_wrapError {α : Type} (msg : String) :
    resultWF (@wrapError α msg) :=
  ⟨internal_mem_errorCodes, rfl⟩

theorem resultWF_ok {α : Type} (a : α) : resultWF (Result.Ok a) := trivial

theorem wf_getStats (kv : StatsKV) (appId : String) (today : DateKey)
    (d : Option DateKey) : resultWF (getStats kv appId today d) := by
  cases hg : kv.getFail appId (d.getD today) with
  | some msg =>
    have he : getStats kv appId today d = wrapError msg := by
      simp [getStats, hg]
    rw [he]
    exact resultWF_wrapError msg
  | none =>
    cases hs : kv.store appId (d.getD today) with
    | none =>
      have he : getStats kv appId today d = Result.Ok (emptyStats (d.getD today)) := by
        simp [getStats, hg, hs]
      rw [he]
      exact resultWF_ok _
    | some s =>
      have he : getStats kv appId today d = Result.Ok s := by
        simp [getStats, hg, hs]
      rw [he]
      exact resultWF_ok _

theorem wf_getStatsRange (kv : StatsKV) (appId : String) (today : DateKey)
    (days : Nat) : resultWF (getStatsRange kv appId today days) :=
  resultWF_ok _

theorem wf_getTotalStats (kv : StatsKV) (appId : String) (today : DateKey)
    (days : Nat) : resultWF (getTotalStats kv appId today days) :=
  resultWF_ok _

theorem wf_incrementStats (kv : StatsKV) (appId : String) (today : DateKey)
    (level : LogLevel) (count : Int) :
    resultWF (incrementStats kv appId today level count).1 := by
  cases hg : kv.getFail appId today with
  | some msg =>
    have he : (incrementStats kv appId today level count).1 = wrapError msg := by
      simp [incrementStats, hg]
    rw [he]
    exact resultWF_wrapError msg
  | none =>
    cases hp : kv.putFail appId today with
    | some msg =>
      have he : (incrementStats kv appId today level count).1 = wrapError msg := by
        simp [incrementStats, hg, hp]
      rw [he]
      exact resultWF_wrapError msg
    | none =>
      rw [incrementStats_eq kv appId today level count hg hp]
      exact resultWF_ok _

theorem wf_incrementStatsBatch (kv : StatsKV) (appId : String) (today : DateKey)
    (counts : List (LogLevel × Int)) :
    resultWF (incrementStatsBatch kv appId today counts).1 := by
  cases hg : kv.getFail appId today with
  | some msg =>
    have he : (incrementStatsBatch kv appId today counts).1 = wrapError msg := by
      simp [incrementStatsBatch, hg]
    rw [he]
    exact resultWF_wrapError msg
  | none =>
    cases hp : kv.putFail appId today with
    | some msg =>
      have he : (incrementStatsBatch kv appId today counts).1 = wrapError msg := by
        simp [incrementStatsBatch, hg, hp]
      rw [he]
      exact resultWF_wrapError msg
    | none =>
      have he : (incrementStatsBatch kv appId today counts).1 =
          Result.Ok (foldBump counts (priorStats kv appId today)) := by
        simp [incrementStatsBatch, foldBump, priorStats, hg, hp]
      rw [he]
      exact resultWF_ok _

theorem wf_listApps (kv : RegistryKV) : resultWF (listApps kv) := by
  cases hg : kv.getAppsFail with
  | some msg =>
    have he : listApps kv = wrapError msg := by simp [listApps, hg]
    rw [he]
    exact resultWF_wrapError msg
  | none =>
    have he : listApps kv = Result.Ok (kv.appsList.getD []) := by simp [listApps, hg]
    rw [he]
    exact resultWF_ok _

theorem wf_getApp (kv : RegistryKV) (appId : String) :
    resultWF (getApp kv appId) := by
  cases hg : kv.getCfgFail appId with
  | some msg =>
    have he : getApp kv appId = wrapError msg := by simp [getApp, hg]
    rw [he]
    exact resultWF_wrapError msg
  | none =>
    have he : getApp kv appId = Result.Ok (kv.appCfg appId) := by simp [getApp, hg]
    rw [he]
    exact resultWF_ok _

theorem wf_putCfgStep (kv : RegistryKV) (appId : String) (config : AppConfig) :
    resultWF (putCfgStep kv appId config).1 := by
  cases hp : kv.putCfgFail appId with
  | some msg =>
    have he : (putCfgStep kv appId config).1 = wrapError msg := by
      simp [putCfgStep, hp]
    rw [he]
    exact resultWF_wrapError msg
  | none =>
    have he : (putCfgStep kv appId config).1 = Result.Ok config := by
      simp [putCfgStep, hp]
    rw [he]
    exact resultWF_ok _

theorem wf_registerApp (kv : RegistryKV) (appId nm : String) (urls : List String)
    (now freshKey : String) :
    resultWF (registerApp kv appId nm urls now freshKey).1 := by
  cases hg : kv.getCfgFail appId with
  | some msg =>
    have he : (registerApp kv appId nm urls now freshKey).1 = wrapError msg := by
      simp [registerApp, hg]
    rw [he]
    exact resultWF_wrapError msg
  | none =>
    cases hc : kv.appCfg appId with
    | some parsed =>
      have he : (registerApp kv appId nm urls now freshKey).1 =
          (putCfgStep kv appId { parsed with name := nm, health_urls := urls }).1 := by
        simp [registerApp, hg, hc]
      rw [he]
      exact wf_putCfgStep _ _ _
    | none =>
      cases hga : kv.getAppsFail with
      | some msg =>
        have he : (registerApp kv appId nm urls now freshKey).1 = wrapError msg := by
          simp [registerApp, listApps, hg, hc, hga, wrapError]
        rw [he]
        exact resultWF_wrapError msg
      | none =>
        by_cases hmem : appId ∈ kv.appsList.getD []
        · have he : (registerApp kv appId nm urls now freshKey).1 =
              (putCfgStep kv appId
                { name := nm, health_urls := urls, created_at := now,
                  api_key := freshKey }).1 := by
            simp [registerApp, listApps, hg, hc, hga, hmem]
          rw [he]
          exact wf_putCfgStep _ _ _
        · cases hpa : kv.putAppsFail with
          | some msg =>
            have he : (registerApp kv appId nm urls now freshKey).1 = wrapError msg := by
              simp [registerApp, listApps, hg, hc, hga, hmem, hpa]
            rw [he]
            exact resultWF_wrapError msg
          | none =>
            have he : (registerApp kv appId nm urls now freshKey).1 =
                (putCfgStep { kv with appsList := some (kv.appsList.getD [] ++ [appId]) }
                  appId
                  { name := nm, health_urls := urls, created_at := now,
                    api_key := freshKey }).1 := by
              simp [registerApp, listApps, hg, hc, hga, hmem, hpa]
            rw [he]
            exact wf_putCfgStep _ _ _

theorem wf_deleteApp (kv : RegistryKV) (appId : String) :
    resultWF (deleteApp kv appId).1 := by
  cases hg : kv.getAppsFail with
  | some msg =>
    have he : (deleteApp kv appId).1 = wrapError msg := by
      simp [deleteApp, listApps, hg, wrapError]
    rw [he]
    exact resultWF_wrapError msg
  | none =>
    cases hpa : kv.putAppsFail with
    | some msg =>
      have he : (deleteApp kv appId).1 = wrapError msg := by
        simp [deleteApp, listApps, hg, hpa]
      rw [he]
      exact resultWF_wrapError msg
    | none =>
      cases hd : kv.delCfgFail appId with
      | some msg =>
        have he : (deleteApp kv appId).1 = wrapError msg := by
          simp [deleteApp, listApps, hg, hpa, hd]
        rw [he]
        exact resultWF_wrapError msg
      | none =>
        have he : (deleteApp kv appId).1 = Result.Ok { deleted := true } := by
          simp [deleteApp, listApps, hg, hpa, hd]
        rw [he]
        exact resultWF_ok _

theorem wf_validateApiKey (kv : RegistryKV) (apiKey : String) :
    resultWF (validateApiKey kv apiKey) := by
  cases hg : kv.getAppsFail with
  | some msg =>
    have he : validateApiKey kv apiKey = wrapError msg := by
      simp [validateApiKey, listApps, hg, wrapError]
    rw [he]
    exact resultWF_wrapError msg
  | none =>
    cases hf : (kv.appsList.getD []).find? (fun appId =>
        match getApp kv appId with
        | Result.Ok (some cfg) => cfg.api_key = apiKey
        | _ => false) with
    | some appId =>
      have he : validateApiKey kv apiKey = Result.Ok (some appId) := by
        simp [validateApiKey, listApps, hg, hf]
      rw [he]
      exact resultWF_ok _
    | none =>
      have he : validateApiKey kv apiKey = Result.Ok none := by
        simp [validateApiKey, listApps, hg, hf]
      rw [he]
      exact resultWF_ok _

theorem wf_regenerateApiKey (kv : RegistryKV) (appId freshKey : String) :
    resultWF (regenerateApiKey kv appId freshKey).1 := by
  cases hg : kv.getCfgFail appId with
  | some msg =>
    have he : (regenerateApiKey kv appId freshKey).1 = wrapError msg := by
      simp [regenerateApiKey, getApp, hg, wrapError]
    rw [he]
    exact resultWF_wrapError msg
  | none =>
    cases hc : kv.appCfg appId with
    | none =>
      have he : (regenerateApiKey kv appId freshKey).1 =
          Result.Err { code := ErrorCode.NOT_FOUND,
                       message := s!"App {appId} not found", details := none } := by
        simp [regenerateApiKey, getApp, hg, hc]
      rw [he]
      exact ⟨notFound_mem_errorCodes, rfl⟩
    | some cfg =>
      cases hp : kv.putCfgFail appId with
      | some msg =>
        have he : (regenerateApiKey kv appId freshKey).1 = wrapError msg := by
          simp [regenerateApiKey, getApp, hg, hc, hp]
        rw [he]
        exact resultWF_wrapError msg
      | none =>
        have he : (regenerateApiKey kv appId freshKey).1 = Result.Ok freshKey := by
          simp [regenerateApiKey, getApp, hg, hc, hp]
        rw [he]
        exact resultWF_ok _

/-- C6: every core operation of the registry and stats services returns a
tagged `Ok`/`Err` envelope whose error code, when present, belongs to the
closed `ErrorCode` set with no details leaked, and a throwing storage call
surfaces as an `Err` with code `INTERNAL_ERROR` carrying only the thrown
message (shown for `incrementStats`, whose `catch` block all the services
share via `wrapError`). -/
theorem core_ops_closed_errors (skv : StatsKV) (rkv : RegistryKV)
    (appId nm apiKey now freshKey : String) (urls : List String)
    (today : DateKey) (d : Option DateKey) (level : LogLevel) (count : Int)
    (counts : List (LogLevel × Int)) (days : Nat) :
    resultWF (getStats skv appId today d) ∧
    resultWF (getStatsRange skv appId today days) ∧
    resultWF (incrementStats skv appId today level count).1 ∧
    resultWF (incrementStatsBatch skv appId today counts).1 ∧
    resultWF (getTotalStats skv appId today days) ∧
    resultWF (listApps rkv) ∧
    resultWF (getApp rkv appId) ∧
    resultWF (registerApp rkv appId nm urls now freshKey).1 ∧
    resultWF (deleteApp rkv appId).1 ∧
    resultWF (validateApiKey rkv apiKey) ∧
    resultWF (regenerateApiKey rkv appId freshKey).1 ∧
    (∀ msg, skv.getFail appId today = some msg →
      (incrementStats skv appId today level count).1 = wrapError msg) ∧
    (∀ msg, skv.getFail appId today = none → skv.putFail appId today = some msg →
      (incrementStats skv appId today level count).1 = wrapError msg) :=
  ⟨wf_getStats skv appId today d,
   wf_getStatsRange skv appId today days,
   wf_incrementStats skv appId today level count,
   wf_incrementStatsBatch skv appId today counts,
   wf_getTotalStats skv appId today days,
   wf_listApps rkv,
   wf_getApp rkv appId,
   wf_registerApp rkv appId nm urls now freshKey,
   wf_deleteApp rkv appId,
   wf_validateApiKey rkv apiKey,
   wf_regenerateApiKey rkv appId freshKey,
   fun msg hmsg => by simp [incrementStats, hmsg],
   fun msg hget hmsg => by simp [incrementStats, hget, hmsg]⟩

theorem core_ops_closed_errors_witness :
    failStatsKV.getFail "app" 0 = some "boom" ∧
    (incrementStats failStatsKV "app" 0 LogLevel.INFO 1).1 =
      @wrapError DailyStats "boom" := by
  have h := core_ops_closed_errors failStatsKV okRegistryKV "app" "nm" "key"
    "now" "fresh" [] 0 none LogLevel.INFO 1 [] 7
  exact ⟨rfl, h.2.2.2.2.2.2.2.2.2.2.2.1 "boom" rfl⟩

/-- C9: re-registering an already registered app keeps the stored `api_key`
and `created_at` exactly as they were (no new API key is generated, the
generated-key and timestamp inputs are ignored) and replaces only the `name`
and `health_urls` fields; the app list and other apps' configs are untouched. -/
theorem registerApp_existing_frame (kv : RegistryKV) (appId nm : String)
    (urls : List String) (now freshKey : String) (parsed : AppConfig)
    (hex : kv.appCfg appId = some parsed)
    (hget : kv.getCfgFail appId = none) (hput : kv.putCfgFail appId = none) :
    (registerApp kv appId nm urls now freshKey).1 =
      Result.Ok { name := nm, health_urls := urls,
                  created_at := parsed.created_at, api_key := parsed.api_key } ∧
    (registerApp kv appId nm urls now freshKey).2.appCfg appId =
      some { name := nm, health_urls := urls,
             created_at := parsed.created_at, api_key := parsed.api_key } ∧
    (registerApp kv appId nm urls now freshKey).2.appsList = kv.appsList ∧
    (∀ a, a ≠ appId →
      (registerApp kv appId nm urls now freshKey).2.appCfg a = kv.appCfg a) ∧
    (∀ now2 key2, registerApp kv appId nm urls now2 key2 =
      registerApp kv appId nm urls now freshKey) := by
  have he : ∀ now3 key3, registerApp kv appId nm urls now3 key3 =
      (Result.Ok { name := nm, health_urls := urls,
                   created_at := parsed.created_at, api_key := parsed.api_key },
       { kv with appCfg := fun a => if a = appId then
           (some { name := nm, health_urls := urls,
                   created_at := parsed.created_at, api_key := parsed.api_key })
         else kv.appCfg a }) := by
    intro now3 key3
    simp [registerApp, putCfgStep, hex, hget, hput]
  refine ⟨?_, ?_, ?_, ?_, ?_⟩
  · rw [he now freshKey]
  · rw [he now freshKey]
    simp
  · rw [he now freshKey]
  · intro a ha
    rw [he now freshKey]
    simp [ha]
  · intro now2 key2
    rw [he now freshKey, he now2 key2]

theorem registerApp_existing_frame_witness :
    okRegistryKV.appCfg "app" = some demoCfg ∧
    (registerApp okRegistryKV "app" "New Name" ["https://new.example"]
      "2025-06-01" "key-fresh").1 =
      Result.Ok { name := "New Name", health_urls := ["https://new.example"],
                  created_at := demoCfg.created_at, api_key := demoCfg.api_key } :=
  ⟨rfl, (registerApp_existing_frame okRegistryKV "app" "New Name"
    ["https://new.example"] "2025-06-01" "key-fresh" demoCfg rfl rfl rfl).1⟩

/-- C10: whether or not the app was ever registered, `deleteApp` returns
`Ok {deleted: true}` whenever the storage calls succeed; afterwards the
identifier is absent from the stored app list and its configuration record is
gone, and the result is the same whatever configuration (or none) was stored
for the identifier. -/
theorem deleteApp_always_ok (kv : RegistryKV) (appId : String)
    (hga : kv.getAppsFail = none) (hpa : kv.putAppsFail = none)
    (hdel : kv.delCfgFail appId = none) :
    (deleteApp kv appId).1 = Result.Ok { deleted := true } ∧
    (deleteApp kv appId).2.appCfg appId = none ∧
    appId ∉ ((deleteApp kv appId).2.appsList.getD []) ∧
    (∀ cfg2 : Option AppConfig,
      (deleteApp
        { kv with appCfg := fun a => if a = appId then cfg2 else kv.appCfg a }
        appId).1 = (deleteApp kv appId).1) := by
  have he : deleteApp kv appId =
      (Result.Ok { deleted := true },
       { kv with
         appsList := some ((kv.appsList.getD []).filter (fun id => id ≠ appId))
         appCfg := fun a => if a = appId then none else kv.appCfg a }) := by
    simp [deleteApp, listApps, hga, hpa, hdel]
  refine ⟨?_, ?_, ?_, ?_⟩
  · rw [he]
  · rw [he]
    simp
  · rw [he]
    simp [List.mem_filter]
  · intro cfg2
    have he2 : (deleteApp
        { kv with appCfg := fun a => if a = appId then cfg2 else kv.appCfg a }
        appId).1 = Result.Ok { deleted := true } := by
      simp [deleteApp, listApps, hga, hpa, hdel]
    rw [he2, he]

theorem deleteApp_always_ok_witness :
    okRegistryKV.getAppsFail = none ∧
    (deleteApp okRegistryKV "app").1 = Result.Ok { deleted := true } ∧
    (deleteApp okRegistryKV "never-registered").1 = Result.Ok { deleted := true } :=
  ⟨rfl, (deleteApp_always_ok okRegistryKV "app" rfl rfl rfl).1,
   (deleteApp_always_ok okRegistryKV "never-registered" rfl rfl rfl).1⟩

/-- C7 counterexample: with 101 stored entries all matching and no filters
supplied, the query returns only 100 entries (the spec's default `limit`
bound), so it does not return exactly the stored entries satisfying the
supplied filters. -/
theorem query_default_limit_truncates :
    (queryLogs demoEntries noFilters).length = 100 ∧
    (demoEntries.filter (matchesFilters noFilters)).length = 101 :=
  ⟨by decide, by decide⟩

/-- C7 (amended): the query returns `Ok` of the entries satisfying the
conjunction of the supplied predicate filters, ordered by timestamp
descending, windowed by `offset` (default 0) and `limit` (default bound 100);
whenever the matches fit inside the window the result is exactly the matching
entries, and when no entry matches it is the empty sequence, not an error. -/
theorem query_conjunctive_sorted (entries : List LogEntry) (f : QueryFilters)
    (hoff : f.offset.getD 0 = 0)
    (hlim : (entries.filter (matchesFilters f)).length ≤ f.limit.getD 100) :
    queryOp entries f = Result.Ok (queryLogs entries f) ∧
    List.Perm (queryLogs entries f) (entries.filter (matchesFilters f)) ∧
    List.Sorted tsDesc (queryLogs entries f) ∧
    ((∀ e ∈ entries, matchesFilters f e = false) → queryLogs entries f = []) := by
  have hql : queryLogs entries f =
      (entries.filter (matchesFilters f)).insertionSort tsDesc := by
    unfold queryLogs
    rw [hoff, List.drop_zero, List.take_of_length_le]
    rw [(List.perm_insertionSort tsDesc (entries.filter (matchesFilters f))).length_eq]
    exact hlim
  refine ⟨rfl, ?_, ?_, ?_⟩
  · rw [hql]
    exact List.perm_insertionSort tsDesc _
  · rw [hql]
    exact List.sorted_insertionSort tsDesc _
  · intro h
    have hnil : entries.filter (matchesFilters f) = [] := by
      rw [List.filter_eq_nil_iff]
      intro e he
      simp [h e he]
    rw [hql, hnil]
    rfl

theorem query_conjunctive_sorted_witness :
    noFilters.offset.getD 0 = 0 ∧
    List.Perm (queryLogs demoPair noFilters) (demoPair.filter (matchesFilters noFilters)) ∧
    List.Sorted tsDesc (queryLogs demoPair noFilters) :=
  have h := query_conjunctive_sorted demoPair noFilters rfl (by decide)
  ⟨rfl, h.2.1, h.2.2.1⟩

end WorkerLogs
